import Mathlib

/-!
Verification of the frontier-exploration engine of `@fizzwiz/prism`:
the synchronous `Search` (both variants in `src/main/core/Search.js`) and the
asynchronous `AsyncSearch` (`src/main/core/AsyncSearch.js`).

The Frontier (queue) itself is an external collaborator of the engine
(`ArrayQueue` of `@fizzwiz/sorted`); it is modelled from the contract the spec
gives for it (clear / addAll / n / poll / select), instantiated at the
first-in-first-out policy that the testable properties name.  Candidates are a
type parameter `α`; a fallible expansion function returns `Except ε _`, and the
lazy generators are modelled as fuel-indexed functions that return the sequence
of yielded candidates, the queue state at every suspension point, the fault (if
one halted the traversal) and the final queue state.
-/

namespace Prism

/-- Modelled from the spec: the Frontier contract (spec section 6) at the
first-in-first-out policy (`ArrayQueue`).  The queue is a list whose head is
the next candidate removed by `poll`; `clear` empties it, `addAll` appends at
the back, `count` is the JS `n()`, and `select k` is `retainBest(k)`: for a
FIFO policy the best candidates are those polled first, i.e. the front of the
list. -/
def Fifo.clear (_q : List α) : List α := []

/-- Modelled from the spec: `addAll(candidates)` of the Frontier contract —
appends the given candidates at the back of the FIFO queue. -/
def Fifo.addAll (q : List α) (xs : List α) : List α := q ++ xs

/-- Modelled from the spec: `n()` of the Frontier contract — the number of
resident candidates. -/
def Fifo.count (q : List α) : Nat := q.length

/-- Modelled from the spec: `select(k)` / `retainBest(k)` of the Frontier
contract — retains only the best `k` candidates per the queue policy; for the
FIFO policy these are the `k` front (earliest inserted) ones. -/
def Fifo.select (q : List α) (k : Nat) : List α := q.take k

/-- Modelled from the spec: the Async Explorer's batch pull
`queue.select(queue.n() - batchLength, false)` — removes and returns the next
`w` candidates per policy (the front of the FIFO queue), retaining the rest.
Returns `(batch, remaining queue)`. -/
def Fifo.pollBatch (q : List α) (w : Nat) : List α × List α := (q.take w, q.drop w)

/-- The `if (max !== undefined) queue.select(max)` step shared by both
explorers: with no bound the queue is left as inserted, with bound `m` only
the best `m` candidates are retained. -/
def applyMax (max? : Option Nat) (q : List α) : List α :=
  match max? with
  | none => q
  | some m => Fifo.select q m

/-- The wrapped error thrown by the Sync Explorer:
`Search expansion failed at item: ...` — it carries the offending candidate
and the underlying fault. -/
structure SyncFault (α ε : Type) where
  item : α
  err : ε
deriving Repr, DecidableEq

/-- The wrapped error thrown by the Async Explorer:
`AsyncSearch expansion failed at batch: ...` — it carries the whole offending
batch and the underlying fault. -/
structure AsyncFault (α ε : Type) where
  batch : List α
  err : ε
deriving Repr, DecidableEq

/-- Observable outcome of running the Sync Explorer's generator for a given
amount of fuel (number of loop iterations observed): the candidates yielded in
order, the queue contents at each suspension point (in the same order), the
wrapping fault if the expansion raised, and the queue contents when iteration
stopped. -/
structure RunResult (α ε : Type) where
  produced : List α
  states : List (List α)
  fault : Option (SyncFault α ε)
  queue : List α
deriving Repr, DecidableEq

/-- The body of `Search[Symbol.iterator]`'s `while (queue.n() > 0)` loop
(`src/main/core/Search.js` lines 117-134): poll the next candidate, invoke the
expansion function (a raise is wrapped with the candidate as context and halts
the traversal, leaving the queue as last mutated), insert the expansion's
candidates unless it returned the no-expansion marker `undefined`, retain the
best `max` when a bound is set, and yield the candidate. -/
def searchLoop (space : α → Except ε (Option (List α))) (max? : Option Nat) :
    List α → Nat → RunResult α ε
  | q, 0 => ⟨[], [], none, q⟩
  | [], _ + 1 => ⟨[], [], none, []⟩
  | c :: rest, fuel + 1 =>
    match space c with
    | Except.error e => ⟨[], [], some ⟨c, e⟩, rest⟩
    | Except.ok none =>
      let r := searchLoop space max? rest fuel
      ⟨c :: r.produced, rest :: r.states, r.fault, r.queue⟩
    | Except.ok (some more) =>
      let q2 := applyMax max? (Fifo.addAll rest more)
      let r := searchLoop space max? q2 fuel
      ⟨c :: r.produced, q2 :: r.states, r.fault, r.queue⟩

/-- `Search[Symbol.iterator]` (`src/main/core/Search.js` lines 108-135): each
fresh iteration clears the (possibly dirty) queue, seeds it with the start
candidates, and runs the exploration loop.  `qpre` is whatever the shared
mutable queue held before the iteration began. -/
def searchRun (space : α → Except ε (Option (List α))) (max? : Option Nat)
    (start : List α) (qpre : List α) (fuel : Nat) : RunResult α ε :=
  searchLoop space max? (Fifo.addAll (Fifo.clear qpre) start) fuel

/-- An expansion function that cannot raise, as the Sync Explorer receives it
when the caller's `space` is total: `(candidate) => iterable | undefined`. -/
def liftSpace (f : α → Option (List α)) : α → Except ε (Option (List α)) :=
  fun a => Except.ok (f a)

/-- The second `Search` variant guards the call site with
`typeof space === "function" ? space(item) : undefined`
(`src/main/core/Search.js` line 221): an absent expansion function behaves as
the constant no-expansion marker. -/
def expandV2 (space? : Option (α → Except ε (Option (List α)))) :
    α → Except ε (Option (List α)) :=
  fun item =>
    match space? with
    | some f => f item
    | none => Except.ok none

/-- The concurrency-width configuration of the Async Explorer: `cores` is
either a fixed number or a (possibly asynchronous) zero-argument function
producing a number, consulted at batch-start time. -/
inductive Cores where
  | fixed : Int → Cores
  | resolver : (Unit → Int) → Cores

/-- `AsyncSearch.resolveCores` (`src/main/core/AsyncSearch.js` lines 78-81):
`typeof this.cores === 'number' ? this.cores : await this.cores()`, then
`Math.max(1, batchLength)` — take the number directly or evaluate the
function, and coerce the outcome to at least 1. -/
def resolveCores : Cores → Int
  | Cores.fixed k => max 1 k
  | Cores.resolver f => max 1 (f ())

/-- `await Promise.all(batch.map(space))`: every expansion of the batch is
awaited; the first raising member rejects the whole batch. -/
def mapExcept (f : α → Except ε β) : List α → Except ε (List β)
  | [] => Except.ok []
  | x :: xs =>
    match f x, mapExcept f xs with
    | Except.error e, _ => Except.error e
    | Except.ok _, Except.error e => Except.error e
    | Except.ok y, Except.ok ys => Except.ok (y :: ys)

/-- Observable outcome of running `AsyncSearch.batchIterator` for a given
number of batches: the batches yielded in order, the queue contents at each
suspension point, the wrapping fault if some expansion raised, and the queue
contents when iteration stopped. -/
structure AsyncRunResult (α ε : Type) where
  batches : List (List α)
  states : List (List α)
  fault : Option (AsyncFault α ε)
  queue : List α
deriving Repr, DecidableEq

/-- The body of `AsyncSearch.batchIterator`'s `while (queue.n() > 0)` loop
(`src/main/core/AsyncSearch.js` lines 102-120): resolve the concurrency width,
pull the next `w` candidates as the batch, expand them all concurrently (a
raise is wrapped with the whole batch as context and halts the traversal,
leaving the queue as last mutated), flatten the results in batch order, insert
them, retain the best `max` when a bound is set, and yield the batch. -/
def batchLoop (spc : α → Except ε (List α)) (max? : Option Nat) (cores : Cores) :
    List α → Nat → AsyncRunResult α ε
  | q, 0 => ⟨[], [], none, q⟩
  | [], _ + 1 => ⟨[], [], none, []⟩
  | c :: rest0, fuel + 1 =>
    let w := (resolveCores cores).toNat
    let batch := (Fifo.pollBatch (c :: rest0) w).1
    let rest := (Fifo.pollBatch (c :: rest0) w).2
    match mapExcept spc batch with
    | Except.error e => ⟨[], [], some ⟨batch, e⟩, rest⟩
    | Except.ok results =>
      let q2 := applyMax max? (Fifo.addAll rest results.flatten)
      let r := batchLoop spc max? cores q2 fuel
      ⟨batch :: r.batches, q2 :: r.states, r.fault, r.queue⟩

/-- `AsyncSearch.batchIterator` (`src/main/core/AsyncSearch.js` lines 93-121):
clear the queue, seed it with the resolved start candidates, then run the
batch loop. -/
def asyncBatchRun (spc : α → Except ε (List α)) (max? : Option Nat) (cores : Cores)
    (start : List α) (qpre : List α) (fuel : Nat) : AsyncRunResult α ε :=
  batchLoop spc max? cores (Fifo.addAll (Fifo.clear qpre) start) fuel

/-- `AsyncSearch[Symbol.asyncIterator]` (`src/main/core/AsyncSearch.js` lines
132-138): flattens the batches of `batchIterator`, yielding the candidates of
each consumed batch one at a time, in batch order. -/
def asyncRun (spc : α → Except ε (List α)) (max? : Option Nat) (cores : Cores)
    (start : List α) (qpre : List α) (fuel : Nat) : List α :=
  (asyncBatchRun spc max? cores start qpre fuel).batches.flatten

/-- An async expansion function that cannot reject. -/
def liftSpaceA (f : α → List α) : α → Except ε (List α) :=
  fun a => Except.ok (f a)

/-- The configuration state of a `Search` instance
(`src/main/core/Search.js`): initial candidates `start`, expansion function
`space` (absent when unset), the queue and the optional bound `max`.  An
absent JS `start` iterates as empty, so it is modelled by the empty list. -/
structure Search (α ε : Type) where
  start : List α
  space : Option (α → Except ε (Option (List α)))
  queue : List α
  max : Option Nat

/-- `Search.from(...starts)` (`src/main/core/Search.js` lines 70-73): assigns
the gathered arguments to `start` and returns the instance.  (`from` is a
Lean keyword, hence the guillemets.) -/
def Search.«from» (s : Search α ε) (starts : List α) : Search α ε :=
  { s with start := starts }

/-- `Search.through(space)` (`src/main/core/Search.js` lines 81-84): assigns
the given expansion function to `space` and returns the instance. -/
def Search.through (s : Search α ε)
    (space : Option (α → Except ε (Option (List α)))) : Search α ε :=
  { s with space := space }

/-- `Search.via(queue, max)` (`src/main/core/Search.js` lines 93-97): assigns
the queue, assigns `max` only when the second argument is not `undefined`,
and returns the instance.  No validation of `max` is performed. -/
def Search.via (s : Search α ε) (queue : List α) (max? : Option Nat) :
    Search α ε :=
  { s with
    queue := queue
    max := match max? with
      | none => s.max
      | some m => some m }

/-- The constructor defaults of the second `Search` variant
(`src/main/core/Search.js` lines 173-179): `start` and `space` undefined,
`queue` a fresh `ArrayQueue`, `max = 256`. -/
def mkSearchV2Default : Search α ε :=
  ⟨[], none, [], some 256⟩

/-- The configuration state of an `AsyncSearch` instance
(`src/main/core/AsyncSearch.js`): like `Search`, plus the concurrency width
`cores`. -/
structure AsyncSearch (α ε : Type) where
  start : List α
  space : Option (α → Except ε (List α))
  queue : List α
  max : Option Nat
  cores : Cores

/-- `AsyncSearch.from(start)` (`src/main/core/AsyncSearch.js` line 63). -/
def AsyncSearch.«from» (s : AsyncSearch α ε) (start : List α) : AsyncSearch α ε :=
  { s with start := start }

/-- `AsyncSearch.through(space)` (`src/main/core/AsyncSearch.js` line 64). -/
def AsyncSearch.through (s : AsyncSearch α ε)
    (space : Option (α → Except ε (List α))) : AsyncSearch α ε :=
  { s with space := space }

/-- `AsyncSearch.via(queue, max)` (`src/main/core/AsyncSearch.js` lines
65-69): assigns the queue, assigns `max` only when given, returns the
instance.  No validation of `max` is performed. -/
def AsyncSearch.via (s : AsyncSearch α ε) (queue : List α) (max? : Option Nat) :
    AsyncSearch α ε :=
  { s with
    queue := queue
    max := match max? with
      | none => s.max
      | some m => some m }

/-- `AsyncSearch.inParallel(cores)` (`src/main/core/AsyncSearch.js` line 70). -/
def AsyncSearch.inParallel (s : AsyncSearch α ε) (cores : Cores) : AsyncSearch α ε :=
  { s with cores := cores }

/-- The constructor defaults of `AsyncSearch`
(`src/main/core/AsyncSearch.js` lines 52-59): `start` and `space` undefined,
`queue` a fresh `ArrayQueue`, `max = 256`, `cores = 16`. -/
def mkAsyncSearchDefault : AsyncSearch α ε :=
  ⟨[], none, [], some 256, Cores.fixed 16⟩

/-- The expansion function of the spec's Ordering property: `n -> [n+1, n+2]`. -/
def spaceC1 : Nat → Except Unit (Option (List Nat)) :=
  liftSpace (fun n => some [n + 1, n + 2])

/-- The constant-no-expansion function used to exercise suspension points at
which no insertion takes place. -/
def spaceNone : Nat → Except Unit (Option (List Nat)) :=
  liftSpace (fun _ => none)

/-- The expansion function of the spec's Batch-flattening property,
`n -> [n+1]`, in its synchronous form. -/
def spaceSucc : Nat → Except Unit (Option (List Nat)) :=
  liftSpace (fun n => some [n + 1])

/-- The expansion function of the spec's Batch-flattening property,
`n -> [n+1]`, in its asynchronous form. -/
def spaceSuccA : Nat → Except Unit (List Nat) :=
  liftSpaceA (fun n => [n + 1])

/-- Once the sync loop has recorded a fault, observing it with any additional
fuel changes nothing: the traversal has halted. -/
theorem searchLoop_fault_persists (space : α → Except ε (Option (List α)))
    (max? : Option Nat) (k : Nat) :
    ∀ (f : Nat) (q : List α) (φ : SyncFault α ε),
      (searchLoop space max? q f).fault = some φ →
      searchLoop space max? q (f + k) = searchLoop space max? q f := by
  intro f
  induction f with
  | zero =>
    intro q φ h
    simp [searchLoop] at h
  | succ n ih =>
    intro q φ h
    have hrw : n + 1 + k = (n + k) + 1 := by omega
    rw [hrw]
    cases q with
    | nil => simp [searchLoop] at h
    | cons c rest =>
      cases hsp : space c with
      | error e => simp only [searchLoop, hsp]
      | ok more? =>
        cases more? with
        | none =>
          simp only [searchLoop, hsp] at h ⊢
          rw [ih rest φ h]
        | some more =>
          simp only [searchLoop, hsp] at h ⊢
          rw [ih _ φ h]

/-- With the expansion function absent (second `Search` variant), a queue of
`n` candidates is fully produced, unchanged and in order, within `n` loop
iterations, the queue draining to empty with no fault. -/
theorem searchLoop_noSpace (max? : Option Nat) :
    ∀ (q : List α) (fuel : Nat), q.length ≤ fuel →
      searchLoop (expandV2 (none : Option (α → Except ε (Option (List α))))) max? q fuel
        = ⟨q, q.tails.drop 1, none, []⟩ := by
  intro q
  induction q with
  | nil =>
    intro fuel h
    cases fuel with
    | zero => simp [searchLoop]
    | succ n => simp [searchLoop]
  | cons c rest ih =>
    intro fuel h
    cases fuel with
    | zero => simp at h
    | succ n =>
      have hn : rest.length ≤ n := by
        simpa using h
      simp only [searchLoop, expandV2, ih n hn, List.tails]
      simp
      cases rest <;> simp [List.tails]

/-- Every queue state recorded at a suspension point of the Async batch loop
under a bound `m` holds at most `m` candidates: each batch is yielded only
after `addAll` followed by `select(max)`. -/
theorem batchLoop_states_bounded (spc : α → Except ε (List α)) (m : Nat)
    (cores : Cores) :
    ∀ (fuel : Nat) (q qs : List α),
      qs ∈ (batchLoop spc (some m) cores q fuel).states → qs.length ≤ m := by
  intro fuel
  induction fuel with
  | zero =>
    intro q qs h
    simp [batchLoop] at h
  | succ n ih =>
    intro q qs h
    cases q with
    | nil => simp [batchLoop] at h
    | cons c rest0 =>
      cases hm : mapExcept spc (Fifo.pollBatch (c :: rest0) (resolveCores cores).toNat).1 with
      | error e =>
        simp only [batchLoop, hm] at h
        simp at h
      | ok results =>
        simp only [batchLoop, hm] at h
        rcases List.mem_cons.mp h with h1 | h2
        · subst h1
          simp [applyMax, Fifo.select]
        · exact ih _ _ h2

/-- A lifted (never-raising) expansion function can never leave a fault in
the sync loop, whatever the bound and the fuel. -/
theorem searchLoop_liftSpace_noFault (f : α → Option (List α)) (max? : Option Nat) :
    ∀ (fuel : Nat) (q : List α),
      (searchLoop (liftSpace f : α → Except ε (Option (List α))) max? q fuel).fault = none := by
  intro fuel
  induction fuel with
  | zero => intro q; simp [searchLoop]
  | succ n ih =>
    intro q
    cases q with
    | nil => simp [searchLoop]
    | cons c rest =>
      cases hfc : f c with
      | none => simp only [searchLoop, liftSpace, hfc]; exact ih rest
      | some more => simp only [searchLoop, liftSpace, hfc]; exact ih _

/-- C1: For the Sync Explorer with a first-in-first-out Frontier, start set
{1}, expansion `n -> [n+1, n+2]` and no bound, the first five produced
Candidates are exactly `1, 2, 3, 3, 4` — breadth-first order. -/
theorem c1_sync_fifo_breadth_first :
    (searchRun spaceC1 none [1] [] 5).produced = [1, 2, 3, 3, 4] := by
  rfl

/-- C2: For the Async Explorer with concurrency width 2, start {1}, expansion
`n -> [n+1]` and `max` unset, the first five produced Candidates equal the
Sync Explorer's first five for the same configuration; in general every
successfully expanded batch is fully expanded and its results inserted before
the next batch is pulled (the recursion continues on the post-insertion
queue), and the candidates of a consumed batch are produced in batch order,
before any candidate of a later batch. -/
theorem c2_async_batches_match_sync (spc : α → Except ε (List α))
    (max? : Option Nat) (cores : Cores) (c : α) (rest : List α)
    (results : List (List α)) (fuel : Nat)
    (h : mapExcept spc (Fifo.pollBatch (c :: rest) (resolveCores cores).toNat).1
        = Except.ok results) :
    asyncRun spaceSuccA none (Cores.fixed 2) [1] [] 5
        = (searchRun spaceSucc none [1] [] 5).produced
    ∧ asyncRun spaceSuccA none (Cores.fixed 2) [1] [] 5 = [1, 2, 3, 4, 5]
    ∧ (batchLoop spc max? cores (c :: rest) (fuel + 1)).batches
        = (Fifo.pollBatch (c :: rest) (resolveCores cores).toNat).1
          :: (batchLoop spc max? cores
                (applyMax max?
                  (Fifo.addAll (Fifo.pollBatch (c :: rest) (resolveCores cores).toNat).2
                    results.flatten)) fuel).batches
    ∧ (batchLoop spc max? cores (c :: rest) (fuel + 1)).batches.flatten
        = (Fifo.pollBatch (c :: rest) (resolveCores cores).toNat).1
          ++ (batchLoop spc max? cores
                (applyMax max?
                  (Fifo.addAll (Fifo.pollBatch (c :: rest) (resolveCores cores).toNat).2
                    results.flatten)) fuel).batches.flatten := by
  refine ⟨by rfl, by rfl, ?_, ?_⟩
  · simp only [batchLoop, h]
  · simp only [batchLoop, h]
    simp

/-- Witness for C2: one concrete batch step with width 2 on queue `[1]`. -/
theorem c2_witness :
    mapExcept spaceSuccA (Fifo.pollBatch [1] (resolveCores (Cores.fixed 2)).toNat).1
        = Except.ok [[2]]
    ∧ (batchLoop spaceSuccA none (Cores.fixed 2) [1] 1).batches
        = [1] :: (batchLoop spaceSuccA none (Cores.fixed 2) [2] 0).batches :=
  ⟨by rfl,
    (c2_async_batches_match_sync spaceSuccA none (Cores.fixed 2) 1 [] [[2]] 0
      (by rfl)).2.2.1⟩

/-- An expansion function that raises exactly at candidate 2. -/
def spaceFail : Nat → Except Unit (Option (List Nat)) :=
  fun n => if n = 2 then Except.error () else Except.ok (some [n + 1])

/-- An async expansion function that rejects exactly at candidate 1. -/
def spcFail : Nat → Except Unit (List Nat) :=
  fun n => if n = 1 then Except.error () else Except.ok [n + 1]

/-- C3: If the expansion function raises at the candidate just polled, the
Sync Explorer yields nothing further and halts with an error carrying that
candidate as context, leaving the queue in its last-mutated (post-poll,
not cleared) state; a recorded fault is final — observing the traversal with
any extra fuel changes nothing (no retry, no further candidates); and the
Async Explorer wraps a raising batch member with the whole batch as context,
leaving the queue in its post-pull state. -/
theorem c3_expansion_fault (space : α → Except ε (Option (List α)))
    (max? : Option Nat) (c : α) (rest : List α) (e : ε) (fuel : Nat)
    (spc : α → Except ε (List α)) (maxA? : Option Nat) (cores : Cores)
    (d : α) (restA : List α) (eA : ε) (fuelA : Nat)
    (qf : List α) (ff k : Nat) (φ : SyncFault α ε)
    (hs : space c = Except.error e)
    (hb : mapExcept spc (Fifo.pollBatch (d :: restA) (resolveCores cores).toNat).1
        = Except.error eA)
    (hφ : (searchLoop space max? qf ff).fault = some φ) :
    searchLoop space max? (c :: rest) (fuel + 1) = ⟨[], [], some ⟨c, e⟩, rest⟩
    ∧ searchLoop space max? qf (ff + k) = searchLoop space max? qf ff
    ∧ batchLoop spc maxA? cores (d :: restA) (fuelA + 1)
        = ⟨[], [],
            some ⟨(Fifo.pollBatch (d :: restA) (resolveCores cores).toNat).1, eA⟩,
            (Fifo.pollBatch (d :: restA) (resolveCores cores).toNat).2⟩ := by
  refine ⟨?_, searchLoop_fault_persists space max? k ff qf φ hφ, ?_⟩
  · simp only [searchLoop, hs]
  · simp only [batchLoop, hb]

/-- Witness for C3: `spaceFail` raises at 2, `spcFail` rejects at 1. -/
theorem c3_witness :
    searchLoop spaceFail none [2, 9] 1 = ⟨[], [], some ⟨2, ()⟩, [9]⟩
    ∧ searchLoop spaceFail none [1, 2] (2 + 3) = searchLoop spaceFail none [1, 2] 2
    ∧ batchLoop spcFail none (Cores.fixed 2) [1] 1 = ⟨[], [], some ⟨[1], ()⟩, []⟩ :=
  c3_expansion_fault spaceFail none 2 [9] () 0 spcFail none (Cores.fixed 2) 1 [] () 0
    [1, 2] 2 3 ⟨2, ()⟩ (by rfl) (by rfl) (by rfl)

/-- C4: A candidate whose expansion yields the no-expansion marker is still
produced, but contributes no successors: the loop continues on the queue left
by the poll alone.  With `space` absent (second `Search` variant), every
expansion is the marker, so a fresh iteration produces exactly the start set
in order, with no fault, and terminates with the queue drained. -/
theorem c4_no_expansion (space : α → Except ε (Option (List α)))
    (max? maxs? : Option Nat) (c : α) (rest : List α) (fuel : Nat)
    (start qpre : List α) (fuel2 : Nat)
    (h : space c = Except.ok none) (hfuel : start.length ≤ fuel2) :
    searchLoop space max? (c :: rest) (fuel + 1)
        = ⟨c :: (searchLoop space max? rest fuel).produced,
            rest :: (searchLoop space max? rest fuel).states,
            (searchLoop space max? rest fuel).fault,
            (searchLoop space max? rest fuel).queue⟩
    ∧ searchRun (expandV2 (none : Option (α → Except ε (Option (List α)))))
          maxs? start qpre fuel2
        = ⟨start, start.tails.drop 1, none, []⟩ := by
  constructor
  · simp only [searchLoop, h]
  · have hrun := searchLoop_noSpace (α := α) (ε := ε) maxs? start fuel2 hfuel
    simpa [searchRun, Fifo.clear, Fifo.addAll] using hrun

/-- Witness for C4: constant no-expansion on `[7, 8]`, and a spaceless
variant-2 run over start `[4, 5]` with a dirty queue `[99]`. -/
theorem c4_witness :
    searchLoop spaceNone none [7, 8] 2
        = ⟨7 :: (searchLoop spaceNone none [8] 1).produced,
            [8] :: (searchLoop spaceNone none [8] 1).states,
            (searchLoop spaceNone none [8] 1).fault,
            (searchLoop spaceNone none [8] 1).queue⟩
    ∧ searchRun (expandV2 (none : Option (Nat → Except Unit (Option (List Nat)))))
          (some 256) [4, 5] [99] 2
        = ⟨[4, 5], [[5], []], none, []⟩ :=
  c4_no_expansion spaceNone none (some 256) 7 [8] 1 [4, 5] [99] 2 (by rfl) (by decide)

/-- C5 counterexample: with `max = 2`, start `[1, 2, 3, 4]` and a
no-expansion `space`, the queue at the very first suspension point holds
`[2, 3, 4]` — three candidates, exceeding the bound, because `select(max)`
runs only after an insertion and the no-expansion branch skips it. -/
theorem c5_counterexample :
    (searchRun spaceNone (some 2) [1, 2, 3, 4] [] 1).states = [[2, 3, 4]]
    ∧ ¬ (∀ qs ∈ (searchRun spaceNone (some 2) [1, 2, 3, 4] [] 1).states,
          qs.length ≤ 2) := by
  constructor
  · rfl
  · decide

/-- C5 as amended: when `max` is set, each insertion of expansion results is
followed by `select(max)`, so the queue recorded at a suspension point whose
candidate did expand holds at most `max` candidates — and in the Async
Explorer, where every yield follows an insertion, every suspension point
respects the bound.  Suspension points of the Sync Explorer whose candidate
returned the no-expansion marker may exceed the bound (see the
counterexample). -/
theorem c5_bound_after_insertion (space : α → Except ε (Option (List α)))
    (m : Nat) (c : α) (rest more : List α) (fuel : Nat)
    (spc : α → Except ε (List α)) (mA : Nat) (cores : Cores)
    (q qs : List α) (fuelA : Nat)
    (h : space c = Except.ok (some more))
    (hqs : qs ∈ (batchLoop spc (some mA) cores q fuelA).states) :
    (searchLoop space (some m) (c :: rest) (fuel + 1)).states.head?
        = some (applyMax (some m) (Fifo.addAll rest more))
    ∧ (applyMax (some m) (Fifo.addAll rest more)).length ≤ m
    ∧ qs.length ≤ mA := by
  refine ⟨?_, ?_, batchLoop_states_bounded spc mA cores fuelA q qs hqs⟩
  · simp only [searchLoop, h]
    rfl
  · simp [applyMax, Fifo.select, Fifo.addAll]

/-- Witness for C5's amended statement: an expanding step under `max = 2` and
an async state under `max = 1`. -/
theorem c5_witness :
    (searchLoop spaceC1 (some 2) [1] 1).states.head?
        = some (applyMax (some 2) (Fifo.addAll [] [2, 3]))
    ∧ (applyMax (some 2) (Fifo.addAll [] [2, 3])).length ≤ 2
    ∧ ([6] : List Nat).length ≤ 1 :=
  c5_bound_after_insertion spaceC1 2 1 [] [2, 3] 0 spaceSuccA 1 (Cores.fixed 2)
    [5] [6] 1 (by rfl) (by decide)

/-- C6: the concurrency width of a batch is the number `cores` itself when it
is fixed, the evaluation of `cores` when it is a function, in both cases
coerced to at least 1; and the batch pulled by a loop step is exactly the
next `resolveCores` candidates of the queue. -/
theorem c6_resolve_cores (k : Int) (f : Unit → Int) (cores : Cores)
    (spc : α → Except ε (List α)) (max? : Option Nat)
    (c : α) (rest : List α) (results : List (List α)) (fuel : Nat)
    (h : mapExcept spc (Fifo.pollBatch (c :: rest) (resolveCores cores).toNat).1
        = Except.ok results) :
    resolveCores (Cores.fixed k) = max 1 k
    ∧ resolveCores (Cores.resolver f) = max 1 (f ())
    ∧ 1 ≤ resolveCores cores
    ∧ (batchLoop spc max? cores (c :: rest) (fuel + 1)).batches.head?
        = some (Fifo.pollBatch (c :: rest) (resolveCores cores).toNat).1 := by
  refine ⟨rfl, rfl, ?_, ?_⟩
  · cases cores <;> exact le_max_left 1 _
  · simp only [batchLoop, h]
    rfl

/-- Witness for C6: a dynamic `cores` resolver returning −5 is coerced to
width 1. -/
theorem c6_witness :
    resolveCores (Cores.fixed 7) = max 1 7
    ∧ resolveCores (Cores.resolver (fun _ => (-5 : Int))) = max 1 (-5 : Int)
    ∧ 1 ≤ resolveCores (Cores.resolver (fun _ => (-5 : Int)))
    ∧ (batchLoop spaceSuccA none (Cores.resolver (fun _ => (-5 : Int))) [1, 2] 1).batches.head?
        = some [1] :=
  c6_resolve_cores 7 (fun _ => (-5 : Int)) (Cores.resolver (fun _ => (-5 : Int)))
    spaceSuccA none 1 [2] [[2]] 0 (by rfl)

/-- C7 counterexample: configuring `max = 0` through `via` is not rejected —
it returns a normally configured instance holding `max = 0` — and a traversal
under `max = 0` runs and completes without any error, producing the first
candidate and then draining (the bound empties the queue).  No setup-time
validation of the bound exists. -/
theorem c7_counterexample :
    Search.via (⟨[], none, [], none⟩ : Search Nat Unit) [5] (some 0)
        = ⟨[], none, [5], some 0⟩
    ∧ searchRun spaceC1 (some 0) [1] [] 3 = ⟨[1], [[]], none, []⟩ :=
  ⟨rfl, rfl⟩

/-- C7 as amended: a `max` of zero (or any value) is stored unchanged by the
`via` setters of both Explorers with no validation and no error at setup, and
a traversal under `max = 0` with a non-raising expansion function reports no
fault — misconfiguration is never signalled, at setup or at traversal. -/
theorem c7_no_validation (s : Search α ε) (t : AsyncSearch α ε) (q qA : List α)
    (m : Nat) (f : α → Option (List α)) (st qp : List α) (fuel : Nat) :
    (Search.via s q (some m)).max = some m
    ∧ (Search.via s q (some m)).queue = q
    ∧ (AsyncSearch.via t qA (some m)).max = some m
    ∧ (searchRun (liftSpace f : α → Except ε (Option (List α))) (some 0) st qp fuel).fault
        = none :=
  ⟨rfl, rfl, rfl, searchLoop_liftSpace_noFault f (some 0) fuel _⟩

/-- C8: each fresh iteration clears and reseeds the queue, so the state the
shared mutable queue was left in by any earlier traversal has no influence:
two runs of the same configuration from arbitrary pre-states are equal, for
both Explorers. -/
theorem c8_restart_independent (space : α → Except ε (Option (List α)))
    (max? : Option Nat) (start qpre1 qpre2 : List α) (fuel : Nat)
    (spc : α → Except ε (List α)) (maxA? : Option Nat) (cores : Cores)
    (startA qpreA1 qpreA2 : List α) (fuelA : Nat) :
    searchRun space max? start qpre1 fuel = searchRun space max? start qpre2 fuel
    ∧ asyncBatchRun spc maxA? cores startA qpreA1 fuelA
        = asyncBatchRun spc maxA? cores startA qpreA2 fuelA :=
  ⟨rfl, rfl⟩

/-- C9: a default-constructed `AsyncSearch` has `max = 256` and `cores = 16`,
the second `Search` variant's constructor also defaults `max` to 256, and a
traversal under the default bound keeps at most 256 candidates in the queue
at every async suspension point and after every sync insertion step. -/
theorem c9_default_bounds (spc : α → Except ε (List α)) (cores : Cores)
    (q qs rest more : List α) (fuel : Nat)
    (hqs : qs ∈ (batchLoop spc (mkAsyncSearchDefault : AsyncSearch α ε).max
        cores q fuel).states) :
    (mkAsyncSearchDefault : AsyncSearch α ε).max = some 256
    ∧ (mkAsyncSearchDefault : AsyncSearch α ε).cores = Cores.fixed 16
    ∧ (mkSearchV2Default : Search α ε).max = some 256
    ∧ qs.length ≤ 256
    ∧ (applyMax (mkSearchV2Default : Search α ε).max (Fifo.addAll rest more)).length
        ≤ 256 := by
  refine ⟨rfl, rfl, rfl, ?_, ?_⟩
  · exact batchLoop_states_bounded spc 256 cores fuel q qs hqs
  · simp [applyMax, Fifo.select, Fifo.addAll, mkSearchV2Default]

/-- Witness for C9: a concrete default-bounded async run. -/
theorem c9_witness :
    (mkAsyncSearchDefault : AsyncSearch Nat Unit).max = some 256
    ∧ (mkAsyncSearchDefault : AsyncSearch Nat Unit).cores = Cores.fixed 16
    ∧ (mkSearchV2Default : Search Nat Unit).max = some 256
    ∧ ([2] : List Nat).length ≤ 256
    ∧ (applyMax (mkSearchV2Default : Search Nat Unit).max
        (Fifo.addAll [0] [3])).length ≤ 256 :=
  c9_default_bounds spaceSuccA (Cores.fixed 2) [1] [2] [0] [3] 1 (by decide)

/-- C10: every fluent setter of both Explorers assigns exactly its own
field(s), leaving every other field unchanged (and, being modelled as the
state of the one instance they return, the returned object is the instance
itself); in particular `via(queue)` with no second argument replaces the
queue and leaves the previously configured `max` untouched. -/
theorem c10_fluent_frame (s : Search α ε) (starts : List α)
    (sp? : Option (α → Except ε (Option (List α)))) (q : List α) (m : Nat)
    (t : AsyncSearch α ε) (startA : List α)
    (spA? : Option (α → Except ε (List α))) (qA : List α) (mA : Nat)
    (cs : Cores) :
    (Search.«from» s starts).start = starts
    ∧ (Search.«from» s starts).space = s.space
    ∧ (Search.«from» s starts).queue = s.queue
    ∧ (Search.«from» s starts).max = s.max
    ∧ (Search.through s sp?).start = s.start
    ∧ (Search.through s sp?).space = sp?
    ∧ (Search.through s sp?).queue = s.queue
    ∧ (Search.through s sp?).max = s.max
    ∧ (Search.via s q (some m)).start = s.start
    ∧ (Search.via s q (some m)).space = s.space
    ∧ (Search.via s q (some m)).queue = q
    ∧ (Search.via s q (some m)).max = some m
    ∧ (Search.via s q none).start = s.start
    ∧ (Search.via s q none).space = s.space
    ∧ (Search.via s q none).queue = q
    ∧ (Search.via s q none).max = s.max
    ∧ (AsyncSearch.«from» t startA).start = startA
    ∧ (AsyncSearch.«from» t startA).space = t.space
    ∧ (AsyncSearch.«from» t startA).queue = t.queue
    ∧ (AsyncSearch.«from» t startA).max = t.max
    ∧ (AsyncSearch.«from» t startA).cores = t.cores
    ∧ (AsyncSearch.through t spA?).start = t.start
    ∧ (AsyncSearch.through t spA?).space = spA?
    ∧ (AsyncSearch.through t spA?).queue = t.queue
    ∧ (AsyncSearch.through t spA?).max = t.max
    ∧ (AsyncSearch.through t spA?).cores = t.cores
    ∧ (AsyncSearch.via t qA (some mA)).start = t.start
    ∧ (AsyncSearch.via t qA (some mA)).space = t.space
    ∧ (AsyncSearch.via t qA (some mA)).queue = qA
    ∧ (AsyncSearch.via t qA (some mA)).max = some mA
    ∧ (AsyncSearch.via t qA (some mA)).cores = t.cores
    ∧ (AsyncSearch.via t qA none).start = t.start
    ∧ (AsyncSearch.via t qA none).space = t.space
    ∧ (AsyncSearch.via t qA none).queue = qA
    ∧ (AsyncSearch.via t qA none).max = t.max
    ∧ (AsyncSearch.via t qA none).cores = t.cores
    ∧ (AsyncSearch.inParallel t cs).start = t.start
    ∧ (AsyncSearch.inParallel t cs).space = t.space
    ∧ (AsyncSearch.inParallel t cs).queue = t.queue
    ∧ (AsyncSearch.inParallel t cs).max = t.max
    ∧ (AsyncSearch.inParallel t cs).cores = cs :=
  ⟨rfl, rfl, rfl, rfl, rfl, rfl, rfl, rfl, rfl, rfl, rfl, rfl, rfl, rfl, rfl,
    rfl, rfl, rfl, rfl, rfl, rfl, rfl, rfl, rfl, rfl, rfl, rfl, rfl, rfl, rfl,
    rfl, rfl, rfl, rfl, rfl, rfl, rfl, rfl, rfl, rfl, rfl⟩

end Prism
